import Mathlib

/-
Verification of the Yu-Gi-Oh card-catalog application (src/db.py, src/scraper.py,
src/config.py) against its natural-language specification.

Modelling conventions:
 - A Python string is modelled as a list of code points (`Str := List Nat`).
   Character classes (`\w`, `\s`, `str.lower`, `str.strip`) are modelled at the
   ASCII level, which is the range exercised by the program's data.
 - The JSON cache file is modelled at the record level: a present, well-formed
   file is the list of card records it contains; `none` marks an absent file,
   and inner `none`s mark records that fail to deserialize.
 - BeautifulSoup documents are modelled abstractly: a card fragment answers
   CSS-selector queries (kept as opaque `String` keys) with optional elements.
 - The external fuzzywuzzy scorer (`fuzz.token_set_ratio`) is an explicit
   function parameter `scorer`; the search functions of `db.py` are otherwise
   translated verbatim, so theorems quantified over `scorer` cover the real
   scorer in particular.
-/

/-- A Python string, as its list of code points. -/
abbrev Str := List Nat

/-- Conversion from a Lean string literal to the code-point model. -/
def str (s : String) : Str := s.toList.map Char.toNat

/-- Whitespace characters, as used by `str.strip`, `str.split` and `\s` (ASCII model). -/
def isWsB (c : Nat) : Bool := c = 32 || c = 9 || c = 10 || c = 13

/-- Decimal digit characters (`\d`). -/
def isDigitB (c : Nat) : Bool := 48 ≤ c && c ≤ 57

/-- Word characters (`\w`, ASCII model): letters, digits and underscore. -/
def isWordB (c : Nat) : Bool :=
  (48 ≤ c && c ≤ 57) || (65 ≤ c && c ≤ 90) || (97 ≤ c && c ≤ 122) || c = 95

/-- `str.lower` on one code point (ASCII model). -/
def lowerN (c : Nat) : Nat := if 65 ≤ c ∧ c ≤ 90 then c + 32 else c

/-- `str.lower`. -/
def lowerStr (s : Str) : Str := s.map lowerN

theorem lowerN_idem (c : Nat) : lowerN (lowerN c) = lowerN c := by
  unfold lowerN
  split
  · split
    · omega
    · rfl
  · rfl

theorem lowerStr_idem (s : Str) : lowerStr (lowerStr s) = lowerStr s := by
  unfold lowerStr
  rw [List.map_map]
  apply List.map_congr_left
  intro c _
  exact lowerN_idem c

theorem lowerStr_append (a b : Str) : lowerStr (a ++ b) = lowerStr a ++ lowerStr b := by
  unfold lowerStr
  exact List.map_append lowerN a b

/-- Substring occurrence, the semantics of Python's `in` on strings. -/
def SubStr (n h : Str) : Prop := ∃ a b, a ++ n ++ b = h

/-- Whether `n` is an initial segment of `h` (executable). -/
def startsWith : Str → Str → Bool
  | [], _ => true
  | _ :: _, [] => false
  | a :: as, b :: bs => a = b && startsWith as bs

/-- Executable substring test, the model of Python's `in` on strings. -/
def containsSub (n : Str) : Str → Bool
  | [] => startsWith n []
  | c :: t => startsWith n (c :: t) || containsSub n t

theorem startsWith_iff (n h : Str) : startsWith n h = true ↔ ∃ r, n ++ r = h := by
  induction n generalizing h with
  | nil => simp [startsWith]
  | cons a as ih =>
    cases h with
    | nil => simp [startsWith]
    | cons b bs =>
      simp only [startsWith, Bool.and_eq_true, decide_eq_true_eq, ih, List.cons_append,
        List.cons.injEq]
      constructor
      · rintro ⟨rfl, r, rfl⟩
        exact ⟨r, rfl, rfl⟩
      · rintro ⟨r, rfl, rfl⟩
        exact ⟨rfl, r, rfl⟩

theorem containsSub_iff (n h : Str) : containsSub n h = true ↔ SubStr n h := by
  induction h with
  | nil =>
    simp only [containsSub, startsWith_iff, SubStr]
    constructor
    · rintro ⟨r, hr⟩
      exact ⟨[], r, by simpa using hr⟩
    · rintro ⟨a, b, hab⟩
      have ha : a = [] := by
        cases a
        · rfl
        · simp at hab
      subst ha
      exact ⟨b, by simpa using hab⟩
  | cons c t ih =>
    simp only [containsSub, Bool.or_eq_true, startsWith_iff, ih, SubStr]
    constructor
    · rintro (⟨r, hr⟩ | ⟨a, b, hab⟩)
      · exact ⟨[], r, by simpa using hr⟩
      · exact ⟨c :: a, b, by simp [hab]⟩
    · rintro ⟨a, b, hab⟩
      cases a with
      | nil =>
        left
        exact ⟨b, by simpa using hab⟩
      | cons a0 as =>
        right
        simp only [List.cons_append, List.cons.injEq] at hab
        exact ⟨as, b, hab.2⟩

theorem SubStr.of_lower {n h : Str} (hs : SubStr n h) : SubStr (lowerStr n) (lowerStr h) := by
  obtain ⟨a, b, rfl⟩ := hs
  exact ⟨lowerStr a, lowerStr b, by simp [lowerStr_append]⟩

/-- Leading whitespace removal (`str.lstrip`). -/
def dropLead (s : Str) : Str := s.dropWhile isWsB

/-- Trailing whitespace removal (`str.rstrip`). -/
def dropTrail : Str → Str
  | [] => []
  | c :: cs =>
    match dropTrail cs with
    | [] => if isWsB c then [] else [c]
    | t => c :: t

/-- `str.strip`. -/
def stripWs (s : Str) : Str := dropLead (dropTrail s)

/-- `re.sub(r'\s+', ' ', s)`: every maximal whitespace run becomes one space. -/
def collapseWs : Str → Str
  | [] => []
  | [c] => if isWsB c then [32] else [c]
  | c :: d :: cs =>
    if isWsB c then
      if isWsB d then collapseWs (d :: cs) else 32 :: collapseWs (d :: cs)
    else c :: collapseWs (d :: cs)

theorem collapseWs_cons_nonws {c : Nat} (hc : isWsB c = false) (cs : Str) :
    collapseWs (c :: cs) = c :: collapseWs cs := by
  cases cs with
  | nil => simp [collapseWs, hc]
  | cons d cs2 => simp [collapseWs, hc]

theorem collapseWs_cons_ws {c : Nat} (hc : isWsB c = true) (cs : Str) :
    collapseWs (c :: cs) = 32 :: collapseWs (cs.dropWhile isWsB) := by
  induction cs generalizing c with
  | nil => simp [collapseWs, hc]
  | cons d cs2 ih =>
    by_cases hd : isWsB d = true
    · rw [show collapseWs (c :: d :: cs2) = collapseWs (d :: cs2) by simp [collapseWs, hc, hd],
        ih hd, List.dropWhile_cons, if_pos hd]
    · rw [show collapseWs (c :: d :: cs2) = 32 :: collapseWs (d :: cs2) by
        simp [collapseWs, hc, hd],
        List.dropWhile_cons, if_neg (by simp [hd])]

theorem collapseWs_ne_nil (c : Nat) (cs : Str) : collapseWs (c :: cs) ≠ [] := by
  by_cases hc : isWsB c = true
  · rw [collapseWs_cons_ws hc]
    simp
  · rw [collapseWs_cons_nonws (by simpa using hc)]
    simp

theorem dropTrail_cons (c : Nat) (cs : Str) :
    dropTrail (c :: cs) =
      match dropTrail cs with
      | [] => if isWsB c then [] else [c]
      | t => c :: t := rfl

theorem dropLead_head (s : Str) :
    dropLead s = [] ∨ ∃ x xs, dropLead s = x :: xs ∧ isWsB x = false := by
  induction s with
  | nil => left; rfl
  | cons c cs ih =>
    by_cases hc : isWsB c = true
    · rw [dropLead, List.dropWhile_cons, if_pos hc]
      exact ih
    · right
      exact ⟨c, cs, by rw [dropLead, List.dropWhile_cons, if_neg (by simp_all)], by simpa using hc⟩

theorem dropLead_idem (s : Str) : dropLead (dropLead s) = dropLead s := by
  rcases dropLead_head s with h | ⟨x, xs, h, hx⟩
  · rw [h]; rfl
  · rw [h, dropLead, List.dropWhile_cons, if_neg (by simp [hx])]

theorem collapseWs_nil : collapseWs [] = [] := rfl

theorem dropLead_cons_ws {c : Nat} (hc : isWsB c = true) (cs : Str) :
    dropLead (c :: cs) = dropLead cs := by
  rw [dropLead, List.dropWhile_cons, if_pos hc]; rfl

theorem dropLead_cons_nonws {c : Nat} (hc : isWsB c = false) (cs : Str) :
    dropLead (c :: cs) = c :: cs := by
  rw [dropLead, List.dropWhile_cons, if_neg (by simp [hc])]

theorem dropLead_collapse_dropLead (u : Str) :
    dropLead (collapseWs (dropLead u)) = collapseWs (dropLead u) := by
  rcases dropLead_head u with h | ⟨x, xs, h, hx⟩
  · rw [h, collapseWs_nil]
    rfl
  · rw [h, collapseWs_cons_nonws hx, dropLead_cons_nonws hx]

theorem collapse_dropLead (s : Str) : collapseWs (dropLead s) = dropLead (collapseWs s) := by
  cases s with
  | nil =>
    rw [show dropLead ([] : Str) = [] from rfl, collapseWs_nil]
    rfl
  | cons c cs =>
    by_cases hc : isWsB c = true
    · rw [dropLead_cons_ws hc, collapseWs_cons_ws hc,
        dropLead_cons_ws (c := 32) (by decide)]
      exact (dropLead_collapse_dropLead cs).symm
    · have hc' : isWsB c = false := by simpa using hc
      rw [dropLead_cons_nonws hc', collapseWs_cons_nonws hc', dropLead_cons_nonws hc']

theorem dropLead_dropTrail (s : Str) : dropLead (dropTrail s) = dropTrail (dropLead s) := by
  induction s with
  | nil => rfl
  | cons c cs ih =>
    by_cases hc : isWsB c = true
    · rw [dropLead_cons_ws hc, ← ih]
      cases h : dropTrail cs with
      | nil =>
        rw [dropTrail_cons, h]
        simp [hc]
      | cons x xs =>
        rw [dropTrail_cons, h]
        simp only
        rw [dropLead_cons_ws hc]
    · have hc' : isWsB c = false := by simpa using hc
      rw [dropLead_cons_nonws hc']
      cases h : dropTrail cs with
      | nil =>
        rw [dropTrail_cons, h]
        simp [hc', dropLead]
      | cons x xs =>
        rw [dropTrail_cons, h]
        simp only
        rw [dropLead_cons_nonws hc']

theorem dropTrail_ends (s : Str) :
    dropTrail s = [] ∨ ∃ u y, dropTrail s = u ++ [y] ∧ isWsB y = false := by
  induction s with
  | nil => left; rfl
  | cons c cs ih =>
    cases h : dropTrail cs with
    | nil =>
      rw [dropTrail_cons, h]
      by_cases hc : isWsB c = true
      · left; simp [hc]
      · right
        exact ⟨[], c, by simp [hc], by simpa using hc⟩
    | cons x xs =>
      rcases ih with h' | ⟨u, y, h', hy⟩
      · rw [h'] at h; cases h
      · right
        refine ⟨c :: u, y, ?_, hy⟩
        rw [dropTrail_cons, h, ← h, h']
        simp only [List.cons_append]
        rw [← h', h]

theorem dropTrail_append_nonws (u : Str) (y : Nat) (hy : isWsB y = false) :
    dropTrail (u ++ [y]) = u ++ [y] := by
  induction u with
  | nil =>
    rw [List.nil_append, dropTrail_cons]
    simp [hy, dropTrail]
  | cons c u ih =>
    rw [List.cons_append, dropTrail_cons, ih]
    cases hu : u ++ [y] with
    | nil => simp at hu
    | cons a as => rfl

theorem dropTrail_idem (s : Str) : dropTrail (dropTrail s) = dropTrail s := by
  rcases dropTrail_ends s with h | ⟨u, y, h, hy⟩
  · rw [h]; rfl
  · rw [h, dropTrail_append_nonws u y hy]

theorem dropLead_append_ne_nil (u : Str) (y : Nat) (hy : isWsB y = false) :
    dropLead (u ++ [y]) ≠ [] := by
  induction u with
  | nil =>
    rw [List.nil_append, dropLead_cons_nonws hy]
    simp
  | cons c u ih =>
    rw [List.cons_append]
    by_cases hc : isWsB c = true
    · rw [dropLead_cons_ws hc]
      exact ih
    · rw [dropLead_cons_nonws (by simpa using hc)]
      simp

theorem collapse_dropTrail (s : Str) : collapseWs (dropTrail s) = dropTrail (collapseWs s) := by
  have main : ∀ n (s : Str), s.length ≤ n →
      collapseWs (dropTrail s) = dropTrail (collapseWs s) := by
    intro n
    induction n with
    | zero =>
      intro s hs
      have hnil : s = [] := by
        cases s
        · rfl
        · simp at hs
      subst hnil
      rw [show dropTrail ([] : Str) = [] from rfl, collapseWs_nil]
      rfl
    | succ n ih =>
      intro s hs
      cases s with
      | nil =>
        rw [show dropTrail ([] : Str) = [] from rfl, collapseWs_nil]
        rfl
      | cons c cs =>
        simp only [List.length_cons, Nat.succ_le_succ_iff] at hs
        by_cases hc : isWsB c = true
        · -- whitespace head
          have hlen : (dropLead cs).length ≤ n :=
            le_trans ((List.dropWhile_sublist (l := cs) isWsB).length_le) hs
          have hih : dropTrail (collapseWs (dropLead cs)) = collapseWs (dropLead (dropTrail cs)) := by
            rw [← ih (dropLead cs) hlen, dropLead_dropTrail]
          rw [collapseWs_cons_ws hc]
          rw [show List.dropWhile isWsB cs = dropLead cs from rfl]
          cases h3 : dropTrail cs with
          | nil =>
            rw [dropTrail_cons, h3]
            simp only [hc, if_true]
            rw [collapseWs_nil, dropTrail_cons, hih, h3,
              show dropLead ([] : Str) = [] from rfl, collapseWs_nil]
            simp [isWsB]
          | cons x xs =>
            rw [dropTrail_cons, h3]
            simp only
            rw [collapseWs_cons_ws hc,
              show List.dropWhile isWsB (x :: xs) = dropLead (x :: xs) from rfl]
            rcases dropTrail_ends cs with h' | ⟨u, y, h', hy⟩
            · rw [h'] at h3; cases h3
            · have hne : collapseWs (dropLead (dropTrail cs)) ≠ [] := by
                rw [h']
                rcases dropLead_head (u ++ [y]) with hl | ⟨a, as, hl, _⟩
                · exact absurd hl (dropLead_append_ne_nil u y hy)
                · rw [hl]
                  exact collapseWs_ne_nil a as
              rw [dropTrail_cons, hih]
              cases h4 : collapseWs (dropLead (dropTrail cs)) with
              | nil => exact absurd h4 hne
              | cons b bs =>
                simp only
                rw [← h4, h3]
        · -- non-whitespace head
          have hc' : isWsB c = false := by simpa using hc
          rw [collapseWs_cons_nonws hc']
          have hih : dropTrail (collapseWs cs) = collapseWs (dropTrail cs) := (ih cs hs).symm
          cases h3 : dropTrail cs with
          | nil =>
            rw [dropTrail_cons, h3, dropTrail_cons, hih, h3, collapseWs_nil]
            simp [hc', collapseWs_cons_nonws hc', collapseWs_nil]
          | cons x xs =>
            rw [dropTrail_cons, h3]
            simp only
            rw [collapseWs_cons_nonws hc', dropTrail_cons, hih, h3]
            cases h4 : collapseWs (x :: xs) with
            | nil => exact absurd h4 (collapseWs_ne_nil x xs)
            | cons b bs => simp only
  exact main s.length s le_rfl

theorem strip_collapse_strip (s : Str) :
    stripWs (collapseWs (stripWs s)) = stripWs (collapseWs s) := by
  unfold stripWs
  rw [← collapse_dropTrail (dropLead (dropTrail s)), ← dropLead_dropTrail (dropTrail s),
    dropTrail_idem, collapse_dropLead, dropLead_idem, collapse_dropTrail]

/-- The scanner behind `str.split()`: `buf` is the reversed current run of
non-whitespace characters. -/
def splitGo : Str → Str → List Str
  | buf, [] => if buf = [] then [] else [buf.reverse]
  | buf, c :: cs =>
    if isWsB c then
      if buf = [] then splitGo [] cs else buf.reverse :: splitGo [] cs
    else splitGo (c :: buf) cs

/-- `str.split()`: the maximal runs of non-whitespace characters. -/
def splitWs (s : Str) : List Str := splitGo [] s

/-- Joining with single spaces (`' '.join`). -/
def joinSp : List Str → Str
  | [] => []
  | [t] => t
  | t :: rest => t ++ 32 :: joinSp rest

/-- `' '.join(text.split())`, the whitespace normalization used in the scraper. -/
def normJoin (s : Str) : Str := joinSp (splitWs s)

/-- The scanner behind `re.findall(r'\b\w+\b', s)`: `buf` is the reversed
current run of word characters. -/
def wordsGo : Str → Str → List Str
  | buf, [] => if buf = [] then [] else [buf.reverse]
  | buf, c :: cs =>
    if isWordB c then wordsGo (c :: buf) cs
    else if buf = [] then wordsGo [] cs
    else buf.reverse :: wordsGo [] cs

/-- `re.findall(r'\b\w+\b', s)` (ASCII model): the maximal runs of word characters. -/
def wordsOf (s : Str) : List Str := wordsGo [] s

/-- `s.replace(pat, "", 1)`: remove the first occurrence of `pat`. -/
def replaceFirst (pat : Str) : Str → Str
  | [] => []
  | c :: cs =>
    if startsWith pat (c :: cs) then (c :: cs).drop pat.length
    else c :: replaceFirst pat cs

/-- The scanner behind `re.findall(r'#([^#]+)#', s)`: `acc` is `some buf`
(reversed span contents) while inside an open `#` span, `none` outside.
A `#` met on an empty span both fails that span and opens a new one,
matching the regex engine resuming one character later. -/
def findHashGo : Option Str → Str → List Str
  | _, [] => []
  | none, c :: cs => if c = 35 then findHashGo (some []) cs else findHashGo none cs
  | some buf, c :: cs =>
    if c = 35 then
      if buf = [] then findHashGo (some []) cs
      else buf.reverse :: findHashGo none cs
    else findHashGo (some (c :: buf)) cs

/-- `re.findall(r'#([^#]+)#', s)`: the `#`-delimited required-keyword spans,
scanned left to right, non-overlapping. -/
def findHash (s : Str) : List Str := findHashGo none s

/-- `re.search(r'(\d+)', s)`: the first maximal digit run, if any. -/
def firstDigitRun : Str → Option Str
  | [] => none
  | c :: cs =>
    if isDigitB c then some (c :: cs.takeWhile isDigitB)
    else firstDigitRun cs

/-- `re.search(r'(\d+|[?])', s)`: the first digit run or `?`, if any. -/
def firstNumOrQ : Str → Option Str
  | [] => none
  | c :: cs =>
    if isDigitB c then some (c :: cs.takeWhile isDigitB)
    else if c = 63 then some [63]
    else firstNumOrQ cs

/-
The data model of db.py.
-/

/-- The Card dataclass of db.py (field `attribute` is `attr` here, `attribute`
being reserved in Lean). All fields are display strings. -/
structure Card where
  name : Str
  attr : Str
  level : Str
  card_type : Str
  atk : Str
  defense : Str
  description : Str
  rarity : Str
deriving DecidableEq

/-- CardDatabase: the ordered card list and the corpus mapping, the latter as an
insertion-ordered association list mirroring a Python dict. -/
structure CardDatabase where
  cards : List Card
  corpus : List (Str × Card)
deriving DecidableEq

/-- Python dict assignment `d[k] = v`: overwrite in place if the key exists,
else append (insertion order preserved, as in Python 3.7+). -/
def insertKey : List (Str × Card) → Str → Card → List (Str × Card)
  | [], k, v => [(k, v)]
  | (k0, v0) :: rest, k, v =>
    if k0 = k then (k0, v) :: rest else (k0, v0) :: insertKey rest k v

/-- Python dict lookup `d[k]` (as an `Option`; in the program it is only
applied to keys of the dict). -/
def lookupKey : List (Str × Card) → Str → Option Card
  | [], _ => none
  | (k0, v0) :: rest, k => if k0 = k then some v0 else lookupKey rest k

theorem lookupKey_insertKey (m : List (Str × Card)) (k : Str) (v : Card) :
    lookupKey (insertKey m k v) k = some v := by
  induction m with
  | nil => simp [insertKey, lookupKey]
  | cons p rest ih =>
    obtain ⟨k0, v0⟩ := p
    by_cases h : k0 = k
    · simp [insertKey, lookupKey, h]
    · simp [insertKey, lookupKey, h, ih]

/-- The fresh database of `CardDatabase.__init__`. -/
def emptyDB : CardDatabase := { cards := [], corpus := [] }

/-- The corpus key synthesized by `CardDatabase.add_card`:
`f"{name} {description} {card_type} {attribute}"` plus the `ATK:`/`DEF:`
suffixes appended when the stat string is non-empty (Python truthiness). -/
def searchableText (c : Card) : Str :=
  c.name ++ [32] ++ c.description ++ [32] ++ c.card_type ++ [32] ++ c.attr
  ++ (if c.atk ≠ [] then str ("ATK: ") ++ c.atk else [])
  ++ (if c.defense ≠ [] then str ("DEF: ") ++ c.defense else [])

/-- `CardDatabase.add_card`. -/
def addCard (db : CardDatabase) (c : Card) : CardDatabase :=
  { cards := db.cards ++ [c], corpus := insertKey db.corpus (searchableText c) c }

/-- The per-candidate check text rebuilt inside `find_multiple_matches`:
the first four fields lowercased, the `ATK:`/`DEF:` suffixes appended
after the lowercasing. -/
def checkText (c : Card) : Str :=
  lowerStr (c.name ++ [32] ++ c.description ++ [32] ++ c.card_type ++ [32] ++ c.attr)
  ++ (if c.atk ≠ [] then str ("ATK: ") ++ c.atk else [])
  ++ (if c.defense ≠ [] then str ("DEF: ") ++ c.defense else [])

theorem lowerStr_checkText (c : Card) :
    lowerStr (checkText c) = lowerStr (searchableText c) := by
  unfold checkText searchableText
  simp only [lowerStr_append, lowerStr_idem]

/-
Highlight rendering: Card._extract_highlight_terms, Card._highlight_text,
Card.to_html.
-/

/-- The replacement markup opening produced by `Card._highlight_text`. -/
def markOpen : Str :=
  str ("<mark style=\"background-color: #ffff00; padding: 1px 3px; border-radius: 3px; font-weight: bold;\">")

/-- The replacement markup closing produced by `Card._highlight_text`. -/
def markClose : Str := str ("</mark>")

/-- `Card._extract_highlight_terms`: the set of distinct words of length at
least 2 in the lowercased query. The Python value is a `set`; it is modelled
as the deduplicated word list, and functions consuming the set take an
explicit enumeration order. -/
def extract_highlight_terms (q : Str) : List Str :=
  ((wordsOf (lowerStr q)).filter (fun w => 2 ≤ w.length)).dedup

/-- The fuel-indexed scanner behind one `pattern.sub` pass of
`Card._highlight_text`; the fuel only serves structural recursion and is
irrelevant once it covers the text length (`subTermFuel_congr`). -/
def subTermFuel : Nat → Str → Str → Str
  | 0, _, _ => []
  | fuel + 1, t, text =>
    match text with
    | [] => []
    | c :: cs =>
      if t ≠ [] ∧ lowerStr ((c :: cs).take t.length) = lowerStr t then
        markOpen ++ (c :: cs).take t.length ++ markClose
          ++ subTermFuel fuel t ((c :: cs).drop t.length)
      else c :: subTermFuel fuel t cs

/-- One `pattern.sub` pass of `Card._highlight_text` for a single term:
wrap every case-insensitive occurrence of `t`, scanning left to right,
non-overlapping. The terms passed by the program are `\w+` words of length
at least 2, so `re.escape` is the identity on them and the empty pattern
never occurs. -/
def subTerm (t : Str) (text : Str) : Str := subTermFuel text.length t text

/-- `Card._highlight_text`: sequential substitution over the term set, in the
given enumeration order. -/
def highlight_text (text : Str) (terms : List Str) : Str :=
  if terms = [] ∨ text = [] then text
  else terms.foldl (fun acc t => subTerm t acc) text

/-- `Card.to_html`: the HTML card template, every field highlighted when the
query is non-empty (Python truthiness of `query`). `order` is the enumeration
order of the internal term set. -/
def to_html (c : Card) (query : Str) (order : List Str) : Str :=
  (fun name attr level card_type atk defense description rarity =>
    str ("\n        <div style=\"border: 2px solid #d4af37; border-radius: 10px; padding: 15px; margin: 10px 0; background: linear-gradient(135deg, #f5f5dc, #fffacd);\">\n            <h2 style=\"color: #8b4513; margin: 0 0 10px 0; border-bottom: 2px solid #d4af37; padding-bottom: 5px;\">\n                ")
    ++ name
    ++ str (" <span style=\"font-size: 14px; color: #666;\">(")
    ++ rarity
    ++ str (")</span>\n            </h2>\n            <div style=\"display: grid; grid-template-columns: 1fr 1fr; gap: 10px; margin: 10px 0;\">\n                <div><strong>Attribute:</strong> ")
    ++ attr
    ++ str ("</div>\n                <div><strong>Level/Rank:</strong> ")
    ++ level
    ++ str ("</div>\n                <div><strong>Type:</strong> ")
    ++ card_type
    ++ str ("</div>\n                <div><strong>ATK/DEF:</strong> ")
    ++ atk
    ++ str ("/")
    ++ defense
    ++ str ("</div>\n            </div>\n            <div style=\"margin-top: 15px;\">\n                <strong>Description:</strong>\n                <p style=\"background: rgba(255,255,255,0.7); padding: 10px; border-radius: 5px; margin: 5px 0; line-height: 1.4;\">\n                    ")
    ++ description
    ++ str ("\n                </p>\n            </div>\n        </div>\n        "))
  (if query ≠ [] then highlight_text c.name order else c.name)
  (if query ≠ [] then highlight_text c.attr order else c.attr)
  (if query ≠ [] then highlight_text c.level order else c.level)
  (if query ≠ [] then highlight_text c.card_type order else c.card_type)
  (if query ≠ [] then highlight_text c.atk order else c.atk)
  (if query ≠ [] then highlight_text c.defense order else c.defense)
  (if query ≠ [] then highlight_text c.description order else c.description)
  (if query ≠ [] then highlight_text c.rarity order else c.rarity)

/-- Modelled from the spec: whether the character before a candidate match (if
any) is a non-word character. -/
def boundPrev : Option Nat → Bool
  | none => true
  | some p => !isWordB p

/-- Modelled from the spec: whether the character after a candidate match (if
any) is a non-word character. -/
def boundNext : Str → Bool
  | [] => true
  | x :: _ => !isWordB x

/-- The fuel-indexed scanner behind the spec's word-boundary highlighting;
the fuel only serves structural recursion. -/
def specSubWBFuel : Nat → Str → Option Nat → Str → Str
  | 0, _, _, _ => []
  | fuel + 1, t, prev, text =>
    match text with
    | [] => []
    | c :: cs =>
      if t ≠ [] ∧ lowerStr ((c :: cs).take t.length) = lowerStr t
          ∧ boundPrev prev = true ∧ boundNext ((c :: cs).drop t.length) = true then
        markOpen ++ (c :: cs).take t.length ++ markClose
          ++ specSubWBFuel fuel t ((c :: cs).take t.length).getLast? ((c :: cs).drop t.length)
      else c :: specSubWBFuel fuel t (some c) cs

/-- Modelled from the spec: the word-boundary highlighting that the spec's §6
describes for `renderWithHighlight` — wrap an occurrence only when the
neighbouring characters (if any) are non-word characters. Defined only to be
compared against the program's `highlight_text`. `prev` is the character
before the current scan position. -/
def specSubWB (t : Str) (prev : Option Nat) (text : Str) : Str :=
  specSubWBFuel text.length t prev text

/-- Modelled from the spec: `renderWithHighlight`'s per-text highlighting with
word boundaries, over a term enumeration. -/
def specHighlightText (text : Str) (terms : List Str) : Str :=
  if terms = [] ∨ text = [] then text
  else terms.foldl (fun acc t => specSubWB t none acc) text

/-
The matcher: config constants, find_best_match and find_multiple_matches.
-/

/-- config.FUZZY_SCORE_CUTOFF_SINGLE. -/
def FUZZY_SCORE_CUTOFF_SINGLE : Nat := 60

/-- config.FUZZY_SCORE_CUTOFF_MULTI. -/
def FUZZY_SCORE_CUTOFF_MULTI : Nat := 50

/-- config.MULTI_SEARCH_LIMIT (`None`: unbounded). -/
def MULTI_SEARCH_LIMIT : Option Nat := none

/-- The accumulator step of `process.extractOne`: keep the strictly better
score, the earlier choice on ties. -/
def extractOneStep (scorer : Str → Str → Nat) (q : Str) :
    Option (Str × Nat) → Str → Option (Str × Nat) :=
  fun acc k =>
    match acc with
    | none => some (k, scorer q k)
    | some (k0, s0) => if s0 < scorer q k then some (k, scorer q k) else some (k0, s0)

/-- `process.extractOne(query, choices, scorer=...)` of fuzzywuzzy: the
highest-scoring choice (first one on ties), `none` on an empty choice list. -/
def extractOne (scorer : Str → Str → Nat) (q : Str) (choices : List Str) :
    Option (Str × Nat) :=
  choices.foldl (extractOneStep scorer q) none

/-- Stable insertion into a score-descending list: the element goes in front
of the first entry whose score does not exceed it, so under the fold below
equal scores keep their original relative order, matching Python's stable
`sorted(..., reverse=True)`. -/
def insertByScore (x : Str × Nat) : List (Str × Nat) → List (Str × Nat)
  | [] => [x]
  | y :: ys => if y.2 ≤ x.2 then x :: y :: ys else y :: insertByScore x ys

/-- `process.extract(...)`'s score-descending stable ordering of all scored
choices. -/
def sortScoreDesc : List (Str × Nat) → List (Str × Nat)
  | [] => []
  | x :: xs => insertByScore x (sortScoreDesc xs)

/-- The `limit=` parameter of `process.extract` (`None`: all results). -/
def limitTo : Option Nat → List (Str × Nat) → List (Str × Nat)
  | none, l => l
  | some n, l => l.take n

/-- `CardDatabase.find_best_match`. -/
def find_best_match (scorer : Str → Str → Nat) (db : CardDatabase) (q : Str) :
    Option (Card × Nat × Str) :=
  if db.cards = [] then none
  else
    match extractOne scorer q (db.corpus.map Prod.fst) with
    | none => none
    | some (k, s) =>
      if FUZZY_SCORE_CUTOFF_SINGLE ≤ s then
        (lookupKey db.corpus k).map (fun c => (c, s, q))
      else none

/-- The `#keyword#` extraction loop of `find_multiple_matches`: the required
keywords (stripped and lowercased) and the query text after removing each
`#...#` span (first occurrence each) and stripping. -/
def processHash (q : Str) : List Str × Str :=
  (((findHash q).map (fun m => lowerStr (stripWs m))),
   ((findHash q).foldl (fun acc m => stripWs (replaceFirst (35 :: m ++ [35]) acc)) q))

/-- `CardDatabase.find_multiple_matches`. -/
def find_multiple_matches (scorer : Str → Str → Nat) (db : CardDatabase) (q : Str) :
    List (Card × Nat × Str) :=
  if db.cards = [] then []
  else
    (limitTo MULTI_SEARCH_LIMIT
        (sortScoreDesc ((db.corpus.map Prod.fst).map
          (fun k => (k, scorer (stripWs (collapseWs (processHash q).2)) k))))).filterMap
      (fun ks =>
        if FUZZY_SCORE_CUTOFF_MULTI ≤ ks.2 then
          match lookupKey db.corpus ks.1 with
          | some c =>
            if (processHash q).1.all (fun kw => containsSub kw (checkText c)) then
              some (c, ks.2, q)
            else none
          | none => none
        else none)

/-- The candidate list of `find_multiple_matches` before the required-keyword
post-filter (used to state that zero required keywords means no filtering). -/
def candidatesList (scorer : Str → Str → Nat) (db : CardDatabase) (q : Str) :
    List (Card × Nat × Str) :=
  if db.cards = [] then []
  else
    (limitTo MULTI_SEARCH_LIMIT
        (sortScoreDesc ((db.corpus.map Prod.fst).map
          (fun k => (k, scorer (stripWs (collapseWs (processHash q).2)) k))))).filterMap
      (fun ks =>
        if FUZZY_SCORE_CUTOFF_MULTI ≤ ks.2 then
          match lookupKey db.corpus ks.1 with
          | some c => some (c, ks.2, q)
          | none => none
        else none)

/-
The cache: save_cache / load_cache, with the JSON file modelled at the record
level.
-/

/-- The cache file contents: `none` = file absent; `some none` = the file is
present but `json.load` fails; `some (some items)` = a JSON list whose
entries either deserialize to a Card (`some c`) or make `Card(**d)` raise
(`none`). -/
abbrev CacheFile := Option (Option (List (Option Card)))

/-- The `for card_data in cache_data` loop of `load_cache`: add cards in
order; the first bad record aborts the loop with `False`, keeping the cards
added so far. -/
def loadItems : CardDatabase → List (Option Card) → CardDatabase × Bool
  | db, [] => (db, true)
  | db, some c :: rest => loadItems (addCard db c) rest
  | db, none :: _ => (db, false)

/-- `CardDatabase.load_cache`. -/
def load_cache (db : CardDatabase) (file : CacheFile) : CardDatabase × Bool :=
  match file with
  | none => (db, false)
  | some none => (db, false)
  | some (some items) => loadItems db items

/-- `CardDatabase.save_cache`: the serialized record list (JSON round-trips
the string fields verbatim, so records are modelled as the cards). -/
def save_cache (db : CardDatabase) : List Card := db.cards

/-- A present, well-formed cache file holding the given records. -/
def fileOf (l : List Card) : CacheFile := some (some (l.map some))

/-- The maximal all-good head of a record list: what `load_cache` manages to
add before the first failing record. -/
def loadedRun : List (Option Card) → List Card
  | [] => []
  | some c :: rest => c :: loadedRun rest
  | none :: _ => []

/-
The scraper (scraper.py): BeautifulSoup fragments are modelled abstractly.
An element answers attribute lookups and child-selector queries; a card
fragment (`card_div`) answers `select_one`, `select` and `find` queries,
with CSS selector strings kept opaque.
-/

/-- An abstract BeautifulSoup element: `get('title'/'src'/'alt')`, `.text`,
`get_text(strip=True)`, `get_text(separator=' ', strip=True)`, an optional
nested `find('span')` text, and `select_one` on child selectors. -/
inductive Elem where
  | mk
    (attrTitle attrSrc attrAlt : Option Str)
    (text textStrip textSep : Str)
    (spanText : Option Str)
    (child : String → Option Elem)

/-- `element.get('title')`. -/
def Elem.attrTitle : Elem → Option Str
  | .mk t _ _ _ _ _ _ _ => t

/-- `element.get('src')`. -/
def Elem.attrSrc : Elem → Option Str
  | .mk _ s _ _ _ _ _ _ => s

/-- `element.get('alt')`. -/
def Elem.attrAlt : Elem → Option Str
  | .mk _ _ a _ _ _ _ _ => a

/-- `element.text`. -/
def Elem.text : Elem → Str
  | .mk _ _ _ t _ _ _ _ => t

/-- `element.get_text(strip=True)`. -/
def Elem.textStrip : Elem → Str
  | .mk _ _ _ _ t _ _ _ => t

/-- `element.get_text(separator=' ', strip=True)`. -/
def Elem.textSep : Elem → Str
  | .mk _ _ _ _ _ t _ _ => t

/-- `element.find('span')`, as that span's text when present. -/
def Elem.spanText : Elem → Option Str
  | .mk _ _ _ _ _ _ s _ => s

/-- `element.select_one(sel)` on child selectors. -/
def Elem.child : Elem → String → Option Elem
  | .mk _ _ _ _ _ _ _ c => c

/-- An abstract card fragment (`card_div`): `select_one`, `select` (list, in
document order; `"*"` is all descendants), `find(tag, class_=...)`, and the
whole fragment's `get_text(strip=True)`. -/
structure CardDiv where
  selOne : String → Option Elem
  selAll : String → List Elem
  findTag : String → String → Option Elem
  allTextStrip : Str

/-- `ScraperThread.extract_card_name`'s per-element name candidate:
`element.get('title') or element.text.strip()`. -/
def elemName (e : Elem) : Str :=
  match e.attrTitle with
  | some t => if t ≠ [] then t else stripWs e.text
  | none => stripWs e.text

/-- The selector loop of `ScraperThread.extract_card_name`. -/
def nameFromSelectors (d : CardDiv) : List String → Option Str
  | [] => none
  | sel :: rest =>
    match d.selOne sel with
    | some e => if elemName e ≠ [] then some (elemName e) else nameFromSelectors d rest
    | none => nameFromSelectors d rest

/-- `ScraperThread.extract_card_name`. -/
def extract_card_name (d : CardDiv) : Option Str :=
  nameFromSelectors d
    ["span.card_name", ".card_name_flex_1", ".card_name", "a[title]", ".t_title a"]

/-- The attribute-keyword cascade of `extract_attribute` on one candidate
text: the first of the nine known category keywords found as a substring. -/
def checkAttrText (s : Str) : Option Str :=
  if containsSub (str ("light")) s then some (str ("LIGHT"))
  else if containsSub (str ("dark")) s then some (str ("DARK"))
  else if containsSub (str ("fire")) s then some (str ("FIRE"))
  else if containsSub (str ("water")) s then some (str ("WATER"))
  else if containsSub (str ("earth")) s then some (str ("EARTH"))
  else if containsSub (str ("wind")) s then some (str ("WIND"))
  else if containsSub (str ("divine")) s then some (str ("DIVINE"))
  else if containsSub (str ("spell")) s then some (str ("SPELL"))
  else if containsSub (str ("trap")) s then some (str ("TRAP"))
  else none

/-- `ScraperThread.safe_extract_text` (the `try` body never raises in the
model). -/
def safe_extract_text (d : CardDiv) (tag cls : String) (dflt : Str) (nestedSpan : Bool) : Str :=
  match d.findTag tag cls with
  | some e =>
    (fun t => if t ≠ [] then normJoin t else dflt)
      (if nestedSpan ∧ e.spanText.isSome then e.spanText.getD [] else e.text)
  | none => dflt

/-- The spell/trap marker checks and plain-text fallback at the end of
`extract_attribute`. -/
def attrAfterIcon (d : CardDiv) : Str :=
  if (d.selOne ".icon_img[title*=\"Spell\"], .icon_img[alt*=\"Spell\"]").isSome then
    str ("SPELL")
  else if (d.selOne ".icon_img[title*=\"Trap\"], .icon_img[alt*=\"Trap\"]").isSome then
    str ("TRAP")
  else safe_extract_text d "div" "box_card_attribute" (str ("N/A")) false

/-- `ScraperThread.extract_attribute`. -/
def extract_attribute (d : CardDiv) : Str :=
  match d.selOne "img[src*=\"attribute\"], .icon_img" with
  | some icon =>
    (fun src alt ttl =>
      match checkAttrText (lowerStr src) with
      | some a => a
      | none =>
        match checkAttrText alt with
        | some a => a
        | none =>
          match checkAttrText ttl with
          | some a => a
          | none => attrAfterIcon d)
    (icon.attrSrc.getD []) (lowerStr (icon.attrAlt.getD [])) (lowerStr (icon.attrTitle.getD []))
  | none => attrAfterIcon d

/-- `ScraperThread.extract_level_rank`. -/
def extract_level_rank (d : CardDiv) : Str :=
  match d.selOne ".box_card_level_rank span, .item_box_value" with
  | some e =>
    match firstDigitRun (stripWs e.text) with
    | some v => v
    | none => str ("N/A")
  | none => str ("N/A")

/-- The selector loop of `extract_card_type`. -/
def typeFromSelectors (d : CardDiv) : List String → Option Str
  | [] => none
  | sel :: rest =>
    match d.selOne sel with
    | some e =>
      if stripWs e.text ≠ [] ∧ stripWs e.text ≠ str ("N/A") then
        (fun ct =>
          if containsSub (str ("spell")) (lowerStr ct) ∨ containsSub (str ("trap")) (lowerStr ct) then
            some ct
          else if ct ≠ [] ∧ ct ≠ str ("N/A") ∧ ct ≠ str ("-") then some ct
          else typeFromSelectors d rest)
        (normJoin (stripWs e.text))
      else typeFromSelectors d rest
    | none => typeFromSelectors d rest

/-- The spell-subtype scan over all descendants in `extract_card_type`. -/
def spellSubtypeOf : List Elem → Option Str
  | [] => none
  | e :: rest =>
    (fun t =>
      if containsSub (str ("continuous")) t ∧ containsSub (str ("spell")) t then
        some (str ("Continuous Spell"))
      else if containsSub (str ("quick-play")) t ∧ containsSub (str ("spell")) t then
        some (str ("Quick-Play Spell"))
      else if containsSub (str ("field")) t ∧ containsSub (str ("spell")) t then
        some (str ("Field Spell"))
      else if containsSub (str ("equip")) t ∧ containsSub (str ("spell")) t then
        some (str ("Equip Spell"))
      else if containsSub (str ("ritual")) t ∧ containsSub (str ("spell")) t then
        some (str ("Ritual Spell"))
      else spellSubtypeOf rest)
    (lowerStr e.textStrip)

/-- The trap-subtype scan over all descendants in `extract_card_type`. -/
def trapSubtypeOf : List Elem → Option Str
  | [] => none
  | e :: rest =>
    (fun t =>
      if containsSub (str ("continuous")) t ∧ containsSub (str ("trap")) t then
        some (str ("Continuous Trap"))
      else if containsSub (str ("counter")) t ∧ containsSub (str ("trap")) t then
        some (str ("Counter Trap"))
      else trapSubtypeOf rest)
    (lowerStr e.textStrip)

/-- The final full-text fallback of `extract_card_type`. -/
def typeFromAllText (allT : Str) : Str :=
  if containsSub (str ("continuous spell")) allT then str ("Continuous Spell")
  else if containsSub (str ("quick-play spell")) allT then str ("Quick-Play Spell")
  else if containsSub (str ("field spell")) allT then str ("Field Spell")
  else if containsSub (str ("equip spell")) allT then str ("Equip Spell")
  else if containsSub (str ("ritual spell")) allT then str ("Ritual Spell")
  else if containsSub (str ("normal spell")) allT then str ("Normal Spell")
  else if containsSub (str ("continuous trap")) allT then str ("Continuous Trap")
  else if containsSub (str ("counter trap")) allT then str ("Counter Trap")
  else if containsSub (str ("normal trap")) allT then str ("Normal Trap")
  else str ("N/A")

/-- `ScraperThread.extract_card_type`. -/
def extract_card_type (d : CardDiv) : Str :=
  match typeFromSelectors d
      [".card_info_species_and_other_item span", ".species", ".card_type",
       "div.item_box_title + .item_box_value", ".item_box_value",
       "span[title*=\"Spell\"]", "span[title*=\"Trap\"]",
       ".box_card_species span", ".card_info span"] with
  | some ct => ct
  | none =>
    if !(d.selAll ".icon_img[title*=\"Spell\"], .icon_img[alt*=\"Spell\"], img[src*=\"spell\"]").isEmpty then
      match spellSubtypeOf (d.selAll "*") with
      | some s => s
      | none => str ("Normal Spell")
    else if !(d.selAll ".icon_img[title*=\"Trap\"], .icon_img[alt*=\"Trap\"], img[src*=\"trap\"]").isEmpty then
      match trapSubtypeOf (d.selAll "*") with
      | some s => s
      | none => str ("Normal Trap")
    else typeFromAllText (lowerStr d.allTextStrip)

/-- `ScraperThread.extract_atk_def`. -/
def extract_atk_def (d : CardDiv) : Str × Str :=
  match d.selOne ".atkdef, .item_box" with
  | some cont =>
    ((match cont.child ".atk_power span, .item_box_value" with
      | some e =>
        match firstNumOrQ (stripWs e.text) with
        | some v => v
        | none => str ("N/A")
      | none => str ("N/A")),
     (match cont.child ".def_power span, .item_box_value" with
      | some e =>
        match firstNumOrQ (stripWs e.text) with
        | some v => v
        | none => str ("N/A")
      | none => str ("N/A")))
  | none => (str ("N/A"), str ("N/A"))

/-- The selector loop of `extract_description`. -/
def descFromSelectors (d : CardDiv) : List String → Str
  | [] => str ("No Description")
  | sel :: rest =>
    match d.selOne sel with
    | some e =>
      if e.textSep ≠ [] ∧ e.textSep ≠ str ("No Description") then e.textSep
      else descFromSelectors d rest
    | none => descFromSelectors d rest

/-- `ScraperThread.extract_description`. -/
def extract_description (d : CardDiv) : Str :=
  descFromSelectors d ["dd.box_card_text", ".card_text", ".text_title"]

/-- The nine known rarity names scanned for by `extract_rarity`. -/
def rarityNames : List Str :=
  [str ("Ultra Rare"), str ("Super Rare"), str ("Secret Rare"), str ("Common"),
   str ("Rare"), str ("Ghost Rare"), str ("Ultimate Rare"), str ("Parallel Rare"),
   str ("Gold Rare")]

/-- The exact-text scan over all descendants in `extract_rarity`. -/
def rarityFromAll : List Elem → Option Str
  | [] => none
  | e :: rest =>
    if e.textStrip ∈ rarityNames then some e.textStrip else rarityFromAll rest

/-- The selector loop of `extract_rarity`. -/
def rarityFromSelectors (d : CardDiv) : List String → Str
  | [] => str ("N/A")
  | sel :: rest =>
    match d.selOne sel with
    | some e => if stripWs e.text ≠ [] then stripWs e.text else rarityFromSelectors d rest
    | none => rarityFromSelectors d rest

/-- `ScraperThread.extract_rarity`. -/
def extract_rarity (d : CardDiv) : Str :=
  match rarityFromAll (d.selAll "*") with
  | some r => r
  | none =>
    rarityFromSelectors d
      [".rarity span", ".rarity", ".star_shining", ".star_gold", ".star_silver", ".icon_rarity"]

/-- `ScraperThread.extract_card_info`: discard the fragment when the name is
missing or empty (`if not name: return None`), else build the Card. -/
def extract_card_info (d : CardDiv) : Option Card :=
  match extract_card_name d with
  | none => none
  | some n =>
    if n = [] then none
    else
      some
        { name := n
          attr := extract_attribute d
          level := extract_level_rank d
          card_type := extract_card_type d
          atk := (extract_atk_def d).1
          defense := (extract_atk_def d).2
          description := extract_description d
          rarity := extract_rarity d }

/-
Supporting lemmas for the claims.
-/

theorem loadItems_eq (items : List (Option Card)) :
    ∀ db, loadItems db items = ((loadedRun items).foldl addCard db, items.all Option.isSome) := by
  induction items with
  | nil => intro db; rfl
  | cons i rest ih =>
    intro db
    cases i with
    | some c =>
      rw [show loadItems db (some c :: rest) = loadItems (addCard db c) rest from rfl, ih]
      rfl
    | none => rfl

theorem foldl_addCard_cards (l : List Card) :
    ∀ db, (l.foldl addCard db).cards = db.cards ++ l := by
  induction l with
  | nil => intro db; simp
  | cons c rest ih =>
    intro db
    rw [List.foldl_cons, ih]
    simp [addCard]

theorem loadedRun_map_some (l : List Card) : loadedRun (l.map some) = l := by
  induction l with
  | nil => rfl
  | cons c rest ih => simp [loadedRun, ih]

/-- A sample card record used by concrete instances. -/
def cardA : Card :=
  { name := str ("a"), attr := str ("d"), level := str ("4"), card_type := str ("t"),
    atk := str ("1"), defense := str ("2"), description := str ("e"), rarity := str ("r") }

/-- Claim C7: saving the catalog and loading it back into a fresh empty
CardDatabase succeeds and reproduces the same ordered card sequence,
field-for-field. -/
theorem c7_cache_round_trip (db : CardDatabase) :
    (load_cache emptyDB (fileOf (save_cache db))).2 = true ∧
    (load_cache emptyDB (fileOf (save_cache db))).1.cards = db.cards := by
  have h2 : load_cache emptyDB (fileOf (save_cache db)) =
      loadItems emptyDB (db.cards.map some) := rfl
  rw [h2, loadItems_eq, loadedRun_map_some]
  constructor
  · simp
  · rw [foldl_addCard_cards]
    rfl

/-- Claim C3 (amended): load_cache never raises and returns False on any
error; an absent file or a failed top-level parse leaves the catalog empty,
but a record that fails to deserialize mid-list leaves the records added
before it in the catalog (partial state observable) and returns False. -/
theorem c3_load_cache_amended :
    load_cache emptyDB none = (emptyDB, false) ∧
    load_cache emptyDB (some none) = (emptyDB, false) ∧
    ∀ items, load_cache emptyDB (some (some items)) =
      ((loadedRun items).foldl addCard emptyDB, items.all Option.isSome) := by
  refine ⟨rfl, rfl, ?_⟩
  intro items
  have h2 : load_cache emptyDB (some (some items)) = loadItems emptyDB items := rfl
  rw [h2, loadItems_eq]

/-- Claim C3 counterexample: a cache list with one good record followed by
one bad record makes load_cache return False while leaving a non-empty
catalog — the load is not all-or-nothing. -/
theorem c3_load_cache_counterexample :
    (load_cache emptyDB (some (some [some cardA, none]))).2 = false ∧
    (load_cache emptyDB (some (some [some cardA, none]))).1.cards ≠ [] := by
  constructor
  · rfl
  · simp [load_cache, loadItems, addCard, emptyDB]

/-- Claim C1 (amended): for a Card with non-empty atk and defense, the corpus
key synthesized by add_card is the four header fields joined by single
spaces, followed by the literal `ATK: ` and `DEF: ` suffixes (no space before
them); add_card maps that key to the card in the corpus. -/
theorem c1_corpus_key_amended (db : CardDatabase) (c : Card)
    (ha : c.atk ≠ []) (hd : c.defense ≠ []) :
    searchableText c =
      c.name ++ [32] ++ c.description ++ [32] ++ c.card_type ++ [32] ++ c.attr
        ++ str ("ATK: ") ++ c.atk ++ str ("DEF: ") ++ c.defense ∧
    lookupKey (addCard db c).corpus (searchableText c) = some c := by
  constructor
  · unfold searchableText
    rw [if_pos ha, if_pos hd]
    simp [List.append_assoc]
  · exact lookupKey_insertKey db.corpus (searchableText c) c

/-- Witness for C1's amended theorem at a concrete card. -/
theorem c1_corpus_key_amended_witness :
    cardA.atk ≠ [] ∧ cardA.defense ≠ [] ∧
      (searchableText cardA =
        cardA.name ++ [32] ++ cardA.description ++ [32] ++ cardA.card_type ++ [32] ++ cardA.attr
          ++ str ("ATK: ") ++ cardA.atk ++ str ("DEF: ") ++ cardA.defense ∧
      lookupKey (addCard emptyDB cardA).corpus (searchableText cardA) = some cardA) :=
  ⟨by decide, by decide, c1_corpus_key_amended emptyDB cardA (by decide) (by decide)⟩

/-- Claim C1 counterexample: the corpus key is not the verbatim concatenation
`name+description+type+attribute+"ATK: "+atk+"DEF: "+def` — the code joins
the first four fields with spaces. -/
theorem c1_corpus_key_counterexample :
    searchableText cardA ≠
      cardA.name ++ cardA.description ++ cardA.card_type ++ cardA.attr
        ++ str ("ATK: ") ++ cardA.atk ++ str ("DEF: ") ++ cardA.defense := by
  decide

/-- Claim C6: searching an empty catalog never errors — find_best_match
returns none and find_multiple_matches returns the empty list whenever the
card sequence is empty, for every query and scorer. -/
theorem c6_empty_catalog (scorer : Str → Str → Nat) (db : CardDatabase) (q : Str)
    (h : db.cards = []) :
    find_best_match scorer db q = none ∧ find_multiple_matches scorer db q = [] := by
  unfold find_best_match find_multiple_matches
  rw [if_pos h, if_pos h]
  exact ⟨rfl, rfl⟩

/-- Witness for C6 at the fresh empty database. -/
theorem c6_empty_catalog_witness :
    find_best_match (fun _ _ => 100) emptyDB (str ("dragon")) = none ∧
    find_multiple_matches (fun _ _ => 100) emptyDB (str ("dragon")) = [] :=
  c6_empty_catalog (fun _ _ => 100) emptyDB (str ("dragon")) rfl

/-- Claim C9: extract_card_info discards a fragment whose name extraction
fails, and every Card it constructs has a non-empty name — so no Card with an
empty name ever enters the store. -/
theorem c9_nonempty_name (d : CardDiv) :
    (extract_card_name d = none → extract_card_info d = none) ∧
    (∀ c, extract_card_info d = some c → c.name ≠ []) := by
  constructor
  · intro h
    unfold extract_card_info
    rw [h]
  · intro c hc
    cases hn : extract_card_name d with
    | none => simp [extract_card_info, hn] at hc
    | some n =>
      by_cases h0 : n = []
      · simp [extract_card_info, hn, h0] at hc
      · simp only [extract_card_info, hn, if_neg h0] at hc
        cases hc
        simpa using h0

/-- An element carrying only a card name, for the C9 witness. -/
def elemNameEx : Elem :=
  .mk none none none (str ("Blue-Eyes White Dragon")) [] [] none (fun _ => none)

/-- A minimal fragment exposing only a name node, for the C9 witness. -/
def divEx : CardDiv :=
  { selOne := fun s => if s = "span.card_name" then some elemNameEx else none,
    selAll := fun _ => [],
    findTag := fun _ _ => none,
    allTextStrip := [] }

/-- The card extracted from `divEx`. -/
def cardEx : Card :=
  { name := str ("Blue-Eyes White Dragon"), attr := str ("N/A"), level := str ("N/A"),
    card_type := str ("N/A"), atk := str ("N/A"), defense := str ("N/A"),
    description := str ("No Description"), rarity := str ("N/A") }

/-- Witness for C9: a concrete fragment that extracts to a Card, whose name
the theorem shows non-empty. -/
theorem c9_nonempty_name_witness :
    extract_card_info divEx = some cardEx ∧ cardEx.name ≠ [] :=
  ⟨by decide, (c9_nonempty_name divEx).2 cardEx (by decide)⟩

theorem extractOne_fold_spec (scorer : Str → Str → Nat) (q : Str) :
    ∀ (keys : List Str) (k0 : Str) (s0 : Nat) (k : Str) (s : Nat),
      keys.foldl (extractOneStep scorer q) (some (k0, s0)) = some (k, s) →
      s0 ≤ s ∧ (s = s0 ∨ ∃ k' ∈ keys, scorer q k' = s) ∧ ∀ k' ∈ keys, scorer q k' ≤ s := by
  intro keys
  induction keys with
  | nil =>
    intro k0 s0 k s h
    simp only [List.foldl_nil, Option.some.injEq, Prod.mk.injEq] at h
    obtain ⟨rfl, rfl⟩ := h
    exact ⟨le_rfl, Or.inl rfl, by simp⟩
  | cons k1 rest ih =>
    intro k0 s0 k s h
    rw [List.foldl_cons] at h
    by_cases hlt : s0 < scorer q k1
    · rw [show extractOneStep scorer q (some (k0, s0)) k1 = some (k1, scorer q k1) by
        simp [extractOneStep, hlt]] at h
      obtain ⟨h1, h2, h3⟩ := ih k1 (scorer q k1) k s h
      refine ⟨le_of_lt (lt_of_lt_of_le hlt h1), ?_, ?_⟩
      · rcases h2 with h2 | ⟨k', hk', hks⟩
        · exact Or.inr ⟨k1, List.mem_cons_self k1 rest, h2.symm⟩
        · exact Or.inr ⟨k', List.mem_cons_of_mem k1 hk', hks⟩
      · intro k' hk'
        rcases List.mem_cons.mp hk' with rfl | hk'
        · exact le_trans h1 le_rfl
        · exact h3 k' hk'
    · rw [show extractOneStep scorer q (some (k0, s0)) k1 = some (k0, s0) by
        simp [extractOneStep, hlt]] at h
      obtain ⟨h1, h2, h3⟩ := ih k0 s0 k s h
      refine ⟨h1, ?_, ?_⟩
      · rcases h2 with h2 | ⟨k', hk', hks⟩
        · exact Or.inl h2
        · exact Or.inr ⟨k', List.mem_cons_of_mem k1 hk', hks⟩
      · intro k' hk'
        rcases List.mem_cons.mp hk' with rfl | hk'
        · exact le_trans (Nat.le_of_not_lt hlt) h1
        · exact h3 k' hk'

theorem extractOne_spec (scorer : Str → Str → Nat) (q : Str) (keys : List Str)
    (k : Str) (s : Nat) (h : extractOne scorer q keys = some (k, s)) :
    (∃ k' ∈ keys, scorer q k' = s) ∧ ∀ k' ∈ keys, scorer q k' ≤ s := by
  cases keys with
  | nil => cases h
  | cons k1 rest =>
    rw [show extractOne scorer q (k1 :: rest) =
        rest.foldl (extractOneStep scorer q) (some (k1, scorer q k1)) from rfl] at h
    obtain ⟨h1, h2, h3⟩ := extractOne_fold_spec scorer q rest k1 (scorer q k1) k s h
    constructor
    · rcases h2 with h2 | ⟨k', hk', hks⟩
      · exact ⟨k1, List.mem_cons_self k1 rest, h2.symm⟩
      · exact ⟨k', List.mem_cons_of_mem k1 hk', hks⟩
    · intro k' hk'
      rcases List.mem_cons.mp hk' with rfl | hk'
      · exact h1
      · exact h3 k' hk'

/-- Claim C5: find_best_match returns a (card, score, query) triple only when
the returned score is at least 60 and is the highest score the scorer gives
any corpus key; whenever every corpus key scores below 60 it returns none. -/
theorem c5_best_match_cutoff (scorer : Str → Str → Nat) (db : CardDatabase) (q : Str) :
    (∀ c s q', find_best_match scorer db q = some (c, s, q') →
      FUZZY_SCORE_CUTOFF_SINGLE ≤ s ∧
      (∃ k ∈ db.corpus.map Prod.fst, scorer q k = s) ∧
      ∀ k ∈ db.corpus.map Prod.fst, scorer q k ≤ s) ∧
    ((∀ k ∈ db.corpus.map Prod.fst, scorer q k < FUZZY_SCORE_CUTOFF_SINGLE) →
      find_best_match scorer db q = none) := by
  constructor
  · intro c s q' h
    by_cases hc : db.cards = []
    · simp [find_best_match, hc] at h
    · cases he : extractOne scorer q (db.corpus.map Prod.fst) with
      | none => simp [find_best_match, hc, he] at h
      | some ks =>
        obtain ⟨k, sc⟩ := ks
        by_cases hcut : FUZZY_SCORE_CUTOFF_SINGLE ≤ sc
        · cases hl : lookupKey db.corpus k with
          | none => simp [find_best_match, hc, he, hl, hcut] at h
          | some c0 =>
            simp only [find_best_match, hc, he, hl, if_pos hcut, if_neg hc, if_false,
              Option.map_some', Option.some.injEq, Prod.mk.injEq] at h
            obtain ⟨rfl, rfl, rfl⟩ := h
            exact ⟨hcut, (extractOne_spec scorer q _ k sc he).1,
              (extractOne_spec scorer q _ k sc he).2⟩
        · simp [find_best_match, hc, he, hcut] at h
  · intro hall
    by_cases hc : db.cards = []
    · simp [find_best_match, hc]
    · cases he : extractOne scorer q (db.corpus.map Prod.fst) with
      | none => simp [find_best_match, hc, he]
      | some ks =>
        obtain ⟨k, sc⟩ := ks
        obtain ⟨⟨k', hk', hks⟩, _⟩ := extractOne_spec scorer q _ k sc he
        have hlt : sc < FUZZY_SCORE_CUTOFF_SINGLE := hks ▸ hall k' hk'
        simp only [find_best_match, hc, he, if_neg hc]
        rw [if_neg (Nat.not_le.mpr hlt)]
        simp

/-- Witness for C5: with a scorer that gives every key score 0 the lookup
returns none on a one-card catalog. -/
theorem c5_best_match_cutoff_witness :
    find_best_match (fun _ _ => 0) (addCard emptyDB cardA) (str ("q")) = none :=
  (c5_best_match_cutoff (fun _ _ => 0) (addCard emptyDB cardA) (str ("q"))).2 (by decide)

theorem subTermFuel_congr :
    ∀ (f1 : Nat), ∀ (f2 : Nat) (t text : Str), text.length ≤ f1 → text.length ≤ f2 →
      subTermFuel f1 t text = subTermFuel f2 t text := by
  intro f1
  induction f1 with
  | zero =>
    intro f2 t text h1 h2
    have : text = [] := by
      cases text
      · rfl
      · simp at h1
    subst this
    cases f2 <;> rfl
  | succ f1 ih =>
    intro f2 t text h1 h2
    cases text with
    | nil => cases f2 <;> rfl
    | cons c cs =>
      cases f2 with
      | zero => simp at h2
      | succ f2 =>
        simp only [List.length_cons, Nat.succ_le_succ_iff] at h1 h2
        show (if t ≠ [] ∧ lowerStr ((c :: cs).take t.length) = lowerStr t then
            markOpen ++ (c :: cs).take t.length ++ markClose
              ++ subTermFuel f1 t ((c :: cs).drop t.length)
          else c :: subTermFuel f1 t cs) =
          (if t ≠ [] ∧ lowerStr ((c :: cs).take t.length) = lowerStr t then
            markOpen ++ (c :: cs).take t.length ++ markClose
              ++ subTermFuel f2 t ((c :: cs).drop t.length)
          else c :: subTermFuel f2 t cs)
        by_cases hcond : t ≠ [] ∧ lowerStr ((c :: cs).take t.length) = lowerStr t
        · rw [if_pos hcond, if_pos hcond]
          have htlen : 1 ≤ t.length := by
            cases t with
            | nil => exact absurd rfl hcond.1
            | cons a b => simp
          have hd : ((c :: cs).drop t.length).length ≤ f1 := by
            simp only [List.length_drop, List.length_cons]
            omega
          have hd2 : ((c :: cs).drop t.length).length ≤ f2 := by
            simp only [List.length_drop, List.length_cons]
            omega
          rw [ih f2 t ((c :: cs).drop t.length) hd hd2]
        · rw [if_neg hcond, if_neg hcond, ih f2 t cs h1 h2]

theorem subTerm_nil (t : Str) : subTerm t [] = [] := rfl

theorem subTerm_cons_match {t0 : Nat} {ts : Str} (c : Nat) (cs : Str)
    (h : lowerStr ((c :: cs).take (t0 :: ts).length) = lowerStr (t0 :: ts)) :
    subTerm (t0 :: ts) (c :: cs) =
      markOpen ++ (c :: cs).take (t0 :: ts).length ++ markClose
        ++ subTerm (t0 :: ts) ((c :: cs).drop (t0 :: ts).length) := by
  show (if (t0 :: ts) ≠ [] ∧ lowerStr ((c :: cs).take (t0 :: ts).length) = lowerStr (t0 :: ts) then
      markOpen ++ (c :: cs).take (t0 :: ts).length ++ markClose
        ++ subTermFuel cs.length (t0 :: ts) ((c :: cs).drop (t0 :: ts).length)
    else c :: subTermFuel cs.length (t0 :: ts) cs) = _
  rw [if_pos ⟨by simp, h⟩]
  have hd : ((c :: cs).drop (t0 :: ts).length).length ≤ cs.length := by
    simp only [List.length_drop, List.length_cons]
    omega
  rw [subTermFuel_congr cs.length ((c :: cs).drop (t0 :: ts).length).length
    (t0 :: ts) ((c :: cs).drop (t0 :: ts).length) hd le_rfl]
  rfl

theorem subTerm_cons_nomatch {t0 : Nat} {ts : Str} (c : Nat) (cs : Str)
    (h : ¬ lowerStr ((c :: cs).take (t0 :: ts).length) = lowerStr (t0 :: ts)) :
    subTerm (t0 :: ts) (c :: cs) = c :: subTerm (t0 :: ts) cs := by
  show (if (t0 :: ts) ≠ [] ∧ lowerStr ((c :: cs).take (t0 :: ts).length) = lowerStr (t0 :: ts) then
      markOpen ++ (c :: cs).take (t0 :: ts).length ++ markClose
        ++ subTermFuel cs.length (t0 :: ts) ((c :: cs).drop (t0 :: ts).length)
    else c :: subTermFuel cs.length (t0 :: ts) cs) = _
  rw [if_neg (fun hc => h hc.2)]
  rfl

/-- Rendering one decomposition piece: wrapped if it was a match. -/
def renderPiece (p : Str × Bool) : Str :=
  if p.2 then markOpen ++ p.1 ++ markClose else p.1

/-- Whether a case-insensitive copy of `t` starts at the head of `s`
(an IGNORECASE literal match at this position). -/
def HeadMatch (t s : Str) : Prop := lowerStr (s.take t.length) = lowerStr t

/-- The decomposition of one `pattern.sub` pass is exactly the greedy
left-to-right non-overlapping scan: every wrapped piece is a case-insensitive
copy of the term, and every skipped piece is one single character at which no
occurrence of the term starts in the remaining text — so every occurrence is
wrapped, and nothing else is. -/
def PartsOK (t : Str) : List (Str × Bool) → Prop
  | [] => True
  | p :: rest =>
    (p.2 = true → lowerStr p.1 = lowerStr t) ∧
    (p.2 = false → p.1.length = 1 ∧ ¬ HeadMatch t (p.1 ++ (rest.map Prod.fst).flatten)) ∧
    PartsOK t rest

theorem highlight_text_single (t : Str) (text : Str) :
    highlight_text text [t] = subTerm t text := by
  unfold highlight_text
  by_cases h : text = []
  · rw [if_pos (Or.inr h), h, subTerm_nil]
  · rw [if_neg (by simp [h])]
    rfl

theorem subTerm_cons_ne_nil (t : Str) (c : Nat) (cs : Str) : subTerm t (c :: cs) ≠ [] := by
  show (if t ≠ [] ∧ lowerStr ((c :: cs).take t.length) = lowerStr t then
      markOpen ++ (c :: cs).take t.length ++ markClose
        ++ subTermFuel cs.length t ((c :: cs).drop t.length)
    else c :: subTermFuel cs.length t cs) ≠ []
  split
  · intro hco
    simp only [List.append_eq_nil] at hco
    exact absurd hco.1.1.1 (by decide)
  · simp

theorem highlight_text_seq (t : Str) (ts : List Str) (text : Str) :
    highlight_text text (t :: ts) = highlight_text (highlight_text text [t]) ts := by
  by_cases htext : text = []
  · subst htext
    rw [show highlight_text [] (t :: ts) = [] by simp [highlight_text],
      show highlight_text ([] : Str) [t] = [] by simp [highlight_text],
      show highlight_text ([] : Str) ts = [] by simp [highlight_text]]
  · rw [highlight_text_single]
    have hne : subTerm t text ≠ [] := by
      cases text with
      | nil => exact absurd rfl htext
      | cons c cs => exact subTerm_cons_ne_nil t c cs
    rw [show highlight_text text (t :: ts) = (t :: ts).foldl (fun acc u => subTerm u acc) text by
      unfold highlight_text
      rw [if_neg (by simp [htext])]]
    rw [List.foldl_cons]
    by_cases hts : ts = []
    · subst hts
      simp [highlight_text]
    · rw [show highlight_text (subTerm t text) ts =
          ts.foldl (fun acc u => subTerm u acc) (subTerm t text) by
        unfold highlight_text
        rw [if_neg (by simp [hts, hne])]]

theorem subTerm_decomposition (t0 : Nat) (ts : Str) :
    ∀ (text : Str), ∃ parts : List (Str × Bool),
      (parts.map Prod.fst).flatten = text ∧
      (parts.map renderPiece).flatten = subTerm (t0 :: ts) text ∧
      PartsOK (t0 :: ts) parts := by
  have main : ∀ n (text : Str), text.length ≤ n → ∃ parts : List (Str × Bool),
      (parts.map Prod.fst).flatten = text ∧
      (parts.map renderPiece).flatten = subTerm (t0 :: ts) text ∧
      PartsOK (t0 :: ts) parts := by
    intro n
    induction n with
    | zero =>
      intro text hlen
      have htext : text = [] := by
        cases text
        · rfl
        · simp at hlen
      subst htext
      exact ⟨[], by simp, by simp [subTerm_nil], trivial⟩
    | succ n ih =>
      intro text hlen
      cases text with
      | nil => exact ⟨[], by simp, by simp [subTerm_nil], trivial⟩
      | cons c cs =>
        simp only [List.length_cons, Nat.succ_le_succ_iff] at hlen
        by_cases hm : lowerStr ((c :: cs).take (t0 :: ts).length) = lowerStr (t0 :: ts)
        · have hdlen : ((c :: cs).drop (t0 :: ts).length).length ≤ n := by
            simp only [List.length_drop, List.length_cons]
            omega
          obtain ⟨parts, hp1, hp2, hpOK⟩ := ih ((c :: cs).drop (t0 :: ts).length) hdlen
          refine ⟨((c :: cs).take (t0 :: ts).length, true) :: parts, ?_, ?_, ?_, ?_, hpOK⟩
          · simp only [List.map_cons, List.flatten_cons, hp1]
            exact List.take_append_drop _ _
          · simp only [List.map_cons, List.flatten_cons, renderPiece, if_pos rfl]
            rw [subTerm_cons_match c cs hm, hp2]
            simp [List.append_assoc]
          · intro _
            exact hm
          · intro hfalse
            exact Bool.noConfusion hfalse
        · obtain ⟨parts, hp1, hp2, hpOK⟩ := ih cs hlen
          refine ⟨([c], false) :: parts, ?_, ?_, ?_, ?_, hpOK⟩
          · simp only [List.map_cons, List.flatten_cons, hp1]
            rfl
          · simp only [List.map_cons, List.flatten_cons, renderPiece]
            rw [subTerm_cons_nomatch c cs hm, hp2]
            simp
          · intro hfalse
            exact Bool.noConfusion hfalse
          · intro _
            refine ⟨rfl, ?_⟩
            rw [hp1]
            exact hm
  intro text
  exact main text.length text le_rfl

/-- Claim C2 (amended): every extracted query term has length at least 2;
the terms are applied sequentially (the first term's pass, then the
remaining terms on its output); and one term's pass is exactly the greedy
left-to-right non-overlapping wrapping of the term's case-insensitive
occurrences — the text decomposes into pieces whose wrapped pieces are
case-insensitive copies of the term and whose skipped pieces are single
characters at which no occurrence starts in the remaining text, so every
occurrence is wrapped, with no word-boundary restriction. -/
theorem c2_highlight_amended :
    (∀ q t, t ∈ extract_highlight_terms q → 2 ≤ t.length) ∧
    (∀ (t : Str) (ts : List Str) (text : Str),
      highlight_text text (t :: ts) = highlight_text (highlight_text text [t]) ts) ∧
    (∀ (t : Str), t ≠ [] → ∀ (text : Str), ∃ parts : List (Str × Bool),
      (parts.map Prod.fst).flatten = text ∧
      (parts.map renderPiece).flatten = highlight_text text [t] ∧
      PartsOK t parts) := by
  refine ⟨?_, highlight_text_seq, ?_⟩
  · intro q t ht
    unfold extract_highlight_terms at ht
    rw [List.mem_dedup, List.mem_filter] at ht
    simpa using ht.2
  · intro t ht text
    obtain ⟨t0, ts, rfl⟩ : ∃ t0 ts, t = t0 :: ts := by
      cases t with
      | nil => exact absurd rfl ht
      | cons a b => exact ⟨a, b, rfl⟩
    rw [highlight_text_single]
    exact subTerm_decomposition t0 ts text

/-- Witness for C2's amended theorem: the greedy decomposition of the
highlighting of `dragon` by the mid-word term `ra`. -/
theorem c2_highlight_amended_witness :
    str ("ra") ≠ [] ∧ ∃ parts : List (Str × Bool),
      (parts.map Prod.fst).flatten = str ("dragon") ∧
      (parts.map renderPiece).flatten = highlight_text (str ("dragon")) [str ("ra")] ∧
      PartsOK (str ("ra")) parts :=
  ⟨by decide, c2_highlight_amended.2.2 (str ("ra")) (by decide) (str ("dragon"))⟩

set_option maxRecDepth 4000 in
/-- Claim C2 counterexample: on the card text `dragon` and the query term
`ra` the program's highlighting differs from the spec's word-boundary
highlighting — the code wraps the mid-word occurrence, the word-boundary
rendering leaves the text unchanged. -/
theorem c2_highlight_counterexample :
    highlight_text (str ("dragon")) [str ("ra")] ≠
      specHighlightText (str ("dragon")) [str ("ra")] := by
  decide

/-- A card whose name interacts with overlapping query terms, for C10. -/
def cardM : Card :=
  { name := str ("mar"), attr := str ("x"), level := str ("x"), card_type := str ("x"),
    atk := str ("x"), defense := str ("x"), description := str ("x"), rarity := str ("x") }

set_option maxRecDepth 100000 in
/-- Claim C10 counterexample: two enumeration orders of the same extracted
term set produce different to_html outputs (the second term can match inside
the markup inserted for the first), so the rendering is not independent of
the set-iteration order. -/
theorem c10_order_counterexample :
    ([str ("ma"), str ("ar")]).Perm (extract_highlight_terms (str ("ma ar"))) ∧
    ([str ("ar"), str ("ma")]).Perm (extract_highlight_terms (str ("ma ar"))) ∧
    to_html cardM (str ("ma ar")) [str ("ma"), str ("ar")] ≠
      to_html cardM (str ("ma ar")) [str ("ar"), str ("ma")] := by
  refine ⟨by decide, by decide, ?_⟩
  decide

/-- Claim C10 (amended): to_html is a pure deterministic function of the
card, the query and the term-set iteration order; when the query yields at
most one term the output does not depend on the iteration order at all. -/
theorem c10_order_amended (c : Card) (q : Str) (o1 o2 : List Str)
    (h1 : o1.Perm (extract_highlight_terms q)) (h2 : o2.Perm (extract_highlight_terms q))
    (hlen : (extract_highlight_terms q).length ≤ 1) :
    to_html c q o1 = to_html c q o2 := by
  cases he : extract_highlight_terms q with
  | nil =>
    rw [he] at h1 h2
    rw [List.perm_nil.mp h1, List.perm_nil.mp h2]
  | cons t rest =>
    rw [he] at h1 h2 hlen
    cases rest with
    | nil => rw [List.perm_singleton.mp h1, List.perm_singleton.mp h2]
    | cons t2 r2 => simp at hlen

/-- Witness for C10's amended theorem at a single-term query. -/
theorem c10_order_amended_witness :
    to_html cardA (str ("ab")) [str ("ab")] = to_html cardA (str ("ab")) [str ("ab")] :=
  c10_order_amended cardA (str ("ab")) [str ("ab")] [str ("ab")]
    (by decide) (by decide) (by decide)

/-
Claims C4 and C8: the required-keyword post-filter of find_multiple_matches.
-/

/-- Claim C4: every card returned by find_multiple_matches has each required
`#`-keyword as a literal case-insensitive substring of its full lowercase
searchable text; with zero required keywords no post-filtering is applied;
in particular `#fire# dragon` only returns cards whose lowercase searchable
text contains `fire`. -/
theorem c4_required_keywords (scorer : Str → Str → Nat) (db : CardDatabase) :
    (∀ q c s q', (c, s, q') ∈ find_multiple_matches scorer db q →
      ∀ kw ∈ (processHash q).1, SubStr kw (lowerStr (searchableText c))) ∧
    (∀ q, (processHash q).1 = [] →
      find_multiple_matches scorer db q = candidatesList scorer db q) ∧
    (∀ c s q', (c, s, q') ∈ find_multiple_matches scorer db (str ("#fire# dragon")) →
      SubStr (str ("fire")) (lowerStr (searchableText c))) := by
  have part1 : ∀ q c s q', (c, s, q') ∈ find_multiple_matches scorer db q →
      ∀ kw ∈ (processHash q).1, SubStr kw (lowerStr (searchableText c)) := by
    intro q c s q' hmem kw hkw
    unfold find_multiple_matches at hmem
    by_cases hc : db.cards = []
    · rw [if_pos hc] at hmem
      cases hmem
    · rw [if_neg hc] at hmem
      obtain ⟨⟨k, sc⟩, hks, hf⟩ := List.mem_filterMap.mp hmem
      by_cases h50 : FUZZY_SCORE_CUTOFF_MULTI ≤ sc
      · rw [if_pos h50] at hf
        cases hl : lookupKey db.corpus k with
        | none =>
          rw [hl] at hf
          cases (show (none : Option (Card × Nat × Str)) = some (c, s, q') from hf)
        | some c0 =>
          rw [hl] at hf
          have hf2 : (if (processHash q).1.all (fun kw => containsSub kw (checkText c0)) then
              some (c0, sc, q) else none) = some (c, s, q') := hf
          by_cases hall : (processHash q).1.all (fun kw => containsSub kw (checkText c0)) = true
          · rw [if_pos hall] at hf2
            simp only [Option.some.injEq, Prod.mk.injEq] at hf2
            obtain ⟨rfl, rfl, rfl⟩ := hf2
            have hcs : containsSub kw (checkText c0) = true :=
              List.all_eq_true.mp hall kw hkw
            have hsub : SubStr (lowerStr kw) (lowerStr (checkText c0)) :=
              ((containsSub_iff kw (checkText c0)).mp hcs).of_lower
            obtain ⟨m, _, rfl⟩ := List.mem_map.mp hkw
            rw [lowerStr_idem] at hsub
            rwa [lowerStr_checkText] at hsub
          · rw [if_neg hall] at hf2
            cases hf2
      · rw [if_neg h50] at hf
        cases hf
  refine ⟨part1, ?_, ?_⟩
  · intro q h0
    unfold find_multiple_matches candidatesList
    by_cases hc : db.cards = []
    · rw [if_pos hc, if_pos hc]
    · rw [if_neg hc, if_neg hc]
      apply List.filterMap_congr
      intro ks _
      rw [h0]
      simp only [List.all_nil, if_true]
  · intro c s q' hmem
    have hfire : str ("fire") ∈ (processHash (str ("#fire# dragon"))).1 := by decide
    exact part1 (str ("#fire# dragon")) c s q' hmem (str ("fire")) hfire

/-- A sample card containing the keyword `fire`, for concrete instances. -/
def cardF : Card :=
  { name := str ("fire drake"), attr := str ("FIRE"), level := str ("4"),
    card_type := str ("Dragon"), atk := str ("1000"), defense := str ("800"),
    description := str ("breathes"), rarity := str ("Rare") }

set_option maxRecDepth 10000 in
/-- Witness for C4: the query `#fire# dragon` on a one-card catalog returns
the card, and the theorem yields the substring fact. -/
theorem c4_required_keywords_witness :
    (cardF, 60, str ("#fire# dragon")) ∈
      find_multiple_matches (fun _ _ => 60) (addCard emptyDB cardF) (str ("#fire# dragon")) ∧
    SubStr (str ("fire")) (lowerStr (searchableText cardF)) :=
  ⟨by decide,
   (c4_required_keywords (fun _ _ => 60) (addCard emptyDB cardF)).2.2 cardF 60
     (str ("#fire# dragon")) (by decide)⟩

theorem findHashGo_no_hash (s : Str) (h : ∀ ch ∈ s, ch ≠ 35) :
    ∀ acc, findHashGo acc s = [] := by
  induction s with
  | nil =>
    intro acc
    cases acc <;> rfl
  | cons c cs ih =>
    intro acc
    have hc : c ≠ 35 := h c (List.mem_cons_self c cs)
    have ih' := fun acc => ih (fun ch hch => h ch (List.mem_cons_of_mem c hch)) acc
    cases acc with
    | none =>
      rw [show findHashGo none (c :: cs) = if c = 35 then findHashGo (some []) cs
          else findHashGo none cs from rfl, if_neg hc]
      exact ih' none
    | some buf =>
      rw [show findHashGo (some buf) (c :: cs) = if c = 35 then
            (if buf = [] then findHashGo (some []) cs else buf.reverse :: findHashGo none cs)
          else findHashGo (some (c :: buf)) cs from rfl, if_neg hc]
      exact ih' (some (c :: buf))

theorem findHash_fire (rest : Str) (h : ∀ ch ∈ rest, ch ≠ 35) :
    findHash (str ("#fire#") ++ rest) = [str ("fire")] := by
  have e : str ("#fire#") = [35, 102, 105, 114, 101, 35] := by decide
  rw [e]
  show findHashGo none ([35, 102, 105, 114, 101, 35] ++ rest) = [str ("fire")]
  have estep : findHashGo none ([35, 102, 105, 114, 101, 35] ++ rest) =
      [102, 105, 114, 101] :: findHashGo none rest := rfl
  rw [estep, findHashGo_no_hash rest h none]
  decide

theorem startsWith_append_self (n r : Str) : startsWith n (n ++ r) = true := by
  induction n with
  | nil => rfl
  | cons a as ih => simp [startsWith, ih]

theorem replaceFirst_head (pat rest : Str) (hp : pat ≠ []) :
    replaceFirst pat (pat ++ rest) = rest := by
  cases pat with
  | nil => exact absurd rfl hp
  | cons p ps =>
    rw [List.cons_append,
      show replaceFirst (p :: ps) (p :: (ps ++ rest)) =
        if startsWith (p :: ps) (p :: (ps ++ rest)) then
          (p :: (ps ++ rest)).drop (p :: ps).length
        else p :: replaceFirst (p :: ps) (ps ++ rest) from rfl,
      if_pos (by rw [← List.cons_append]; exact startsWith_append_self (p :: ps) rest),
      ← List.cons_append, List.drop_left]

theorem processHash_fire (rest : Str) (h : ∀ ch ∈ rest, ch ≠ 35) :
    processHash (str ("#fire#") ++ rest) = ([str ("fire")], stripWs rest) := by
  unfold processHash
  rw [findHash_fire rest h]
  have e1 : ([str ("fire")]).map (fun m => lowerStr (stripWs m)) = [str ("fire")] := by decide
  have e2 : ([str ("fire")]).foldl
      (fun acc m => stripWs (replaceFirst (35 :: m ++ [35]) acc)) (str ("#fire#") ++ rest)
      = stripWs rest := by
    rw [List.foldl_cons, List.foldl_nil,
      show (35 :: str ("fire") ++ [35] : Str) = str ("#fire#") by decide,
      replaceFirst_head (str ("#fire#")) rest (by decide)]
  rw [e1, e2]

theorem processHash_nohash (rest : Str) (h : ∀ ch ∈ rest, ch ≠ 35) :
    processHash rest = ([], rest) := by
  unfold processHash
  rw [show findHash rest = findHashGo none rest from rfl, findHashGo_no_hash rest h none]
  rfl

theorem filterMap_map_fst_subset {α β γ : Type} (f1 f2 : α → Option (γ × β)) (l : List α)
    (h : ∀ a y, f1 a = some y → ∃ y2, f2 a = some y2 ∧ y2.1 = y.1) :
    ∀ c, c ∈ (l.filterMap f1).map Prod.fst → c ∈ (l.filterMap f2).map Prod.fst := by
  intro c hc
  obtain ⟨y, hy, rfl⟩ := List.mem_map.mp hc
  obtain ⟨a, ha, hfa⟩ := List.mem_filterMap.mp hy
  obtain ⟨y2, hf2, he⟩ := h a y hfa
  exact List.mem_map.mpr ⟨y2, List.mem_filterMap.mpr ⟨a, ha, hf2⟩, he⟩

/-- Claim C8: for a query consisting of the `#fire#` marker followed by
`#`-free text, every card returned with the marker kept is also returned for
the same query with the marker removed — dropping the marker never shrinks
the result set. -/
theorem c8_marker_superset (scorer : Str → Str → Nat) (db : CardDatabase) (rest : Str)
    (hrest : ∀ ch ∈ rest, ch ≠ 35) :
    ∀ c, c ∈ (find_multiple_matches scorer db (str ("#fire#") ++ rest)).map (fun r => r.1) →
      c ∈ (find_multiple_matches scorer db rest).map (fun r => r.1) := by
  intro c hc
  by_cases hdb : db.cards = []
  · rw [show find_multiple_matches scorer db (str ("#fire#") ++ rest) = [] by
      unfold find_multiple_matches; rw [if_pos hdb]] at hc
    cases hc
  · unfold find_multiple_matches at hc ⊢
    rw [if_neg hdb] at hc ⊢
    rw [processHash_fire rest hrest] at hc
    rw [processHash_nohash rest hrest]
    simp only [strip_collapse_strip] at hc
    refine filterMap_map_fst_subset _ _ _ ?_ c hc
    intro ks y hf1
    by_cases h50 : FUZZY_SCORE_CUTOFF_MULTI ≤ ks.2
    · rw [if_pos h50] at hf1
      rw [if_pos h50]
      cases hl : lookupKey db.corpus ks.1 with
      | none =>
        rw [hl] at hf1
        cases (show (none : Option (Card × Nat × Str)) = some y from hf1)
      | some c0 =>
        rw [hl] at hf1
        have hf1' : (if ([str ("fire")] : List Str).all
            (fun kw => containsSub kw (checkText c0)) then
            some (c0, ks.2, str ("#fire#") ++ rest) else none) = some y := hf1
        by_cases hall : ([str ("fire")] : List Str).all
            (fun kw => containsSub kw (checkText c0)) = true
        · rw [if_pos hall] at hf1'
          refine ⟨(c0, ks.2, rest), ?_, ?_⟩
          · show (if ([] : List Str).all (fun kw => containsSub kw (checkText c0)) then
                some (c0, ks.2, rest) else none) = some (c0, ks.2, rest)
            simp
          · have hy : (c0, ks.2, str ("#fire#") ++ rest) = y := Option.some.inj hf1'
            rw [← hy]
        · rw [if_neg hall] at hf1'
          cases hf1'
    · rw [if_neg h50] at hf1
      cases hf1

set_option maxRecDepth 10000 in
/-- Witness for C8: the one-card catalog answers both the marked and the
unmarked query with the card, and the theorem carries the first membership
to the second. -/
theorem c8_marker_superset_witness :
    (∀ ch ∈ str (" dragon"), ch ≠ 35) ∧
    cardF ∈ (find_multiple_matches (fun _ _ => 60) (addCard emptyDB cardF)
      (str ("#fire#") ++ str (" dragon"))).map (fun r => r.1) ∧
    cardF ∈ (find_multiple_matches (fun _ _ => 60) (addCard emptyDB cardF)
      (str (" dragon"))).map (fun r => r.1) :=
  ⟨by decide, by decide,
   c8_marker_superset (fun _ _ => 60) (addCard emptyDB cardF) (str (" dragon"))
     (by decide) cardF (by decide)⟩
